import Mathlib

/-!
Shallow embedding of `src/graphql_transport_ws.ts` (the `GraphQLTransportWs`
client of the `graphql-transport-ws` sub-protocol) and proofs about it.

Modelling conventions:
* Payloads are opaque strings (`String` for object payloads, `List String`
  for the error-list payload); the claims under study never inspect payload
  contents.
* The message codec (`parse.ts`, an external collaborator per its contract)
  is abstracted by the `Raw` type: an inbound transport message is either a
  successfully decoded `Message` or a decode failure carrying its
  human-readable description.  The codec contract says exactly one of the
  two is produced and that decoding never throws.
* The outbound `Sender` (`utils.ts`, not part of the source under study) is
  observed through `Act.send` trace actions: an `Act.send m` records that
  the client invoked the sender with frame `m`.
* All observable behaviour is recorded in a trace of `Act` actions; every
  operation maps a `ClientState` to a new state plus the list of actions it
  performed, in order.
-/

/-- The eight protocol message variants of the `graphql-transport-ws`
sub-protocol, as produced by the codec and consumed by the dispatcher. -/
inductive Message where
  | connectionInit (payload : Option String)
  | connectionAck (payload : Option String)
  | ping (payload : Option String)
  | pong (payload : Option String)
  | subscribe (id : String) (payload : String)
  | next (id : String) (payload : String)
  | error (id : String) (payload : List String)
  | complete (id : String)
deriving DecidableEq, Repr

/-- The subscription identifier carried by a message, when its variant has
one (mirrors the optional `id` field on the wire). -/
def Message.msgId : Message → Option String
  | .subscribe i _ => some i
  | .next i _ => some i
  | .error i _ => some i
  | .complete i => some i
  | _ => none

/-- Event names used on the internal event target: the eight per-variant
names of `GraphQLTransportWsEventMap` plus the `unknown` event dispatched on
decode failure. -/
inductive EvName where
  | connectioninit
  | connectionack
  | ping
  | pong
  | subscribe
  | next
  | error
  | complete
  | unknown
deriving DecidableEq, Repr

/-- The public event name for a decoded message's variant. -/
def Message.variantName : Message → EvName
  | .connectionInit _ => .connectioninit
  | .connectionAck _ => .connectionack
  | .ping _ => .ping
  | .pong _ => .pong
  | .subscribe _ _ => .subscribe
  | .next _ _ => .next
  | .error _ _ => .error
  | .complete _ => .complete

/-- Data carried by a dispatched event: a decoded message, or (for the
`unknown` event) the decode failure description. -/
inductive EvData where
  | msg (m : Message)
  | desc (s : String)
deriving DecidableEq, Repr

/-- A listener registered on the internal event target.  `subNext k`,
`subError k` and `subCompleted k` are the three scoped handlers wired by
the `subscribe()` call that created subscription number `k`
(`createNextHandler`, `createErrorHandler` and the local
`createCompletedHandler`); `user t` is a caller-registered listener. -/
inductive Listener where
  | subNext (k : Nat)
  | subError (k : Nat)
  | subCompleted (k : Nat)
  | user (t : Nat)
deriving DecidableEq, Repr

/-- One entry of the internal event target's listener registry:
the event name it is registered under, the listener, and whether it was
registered with the `once` option. -/
structure BusEntry where
  name : EvName
  l : Listener
  once : Bool
deriving DecidableEq, Repr

/-- Observable actions, recorded in order of occurrence. -/
inductive Act where
  | send (m : Message)
  | busEvent (name : EvName) (d : EvData)
  | slotHit (name : EvName) (d : EvData)
  | userHit (t : Nat) (name : EvName) (d : EvData)
  | cbNext (id : String) (payload : String)
  | cbError (id : String) (payload : List String)
  | cbComplete (id : String)
  | dispose (k : Nat)
deriving DecidableEq, Repr

/-- State of one `GraphQLTransportWs` instance.
`completedIds` is the private `#completedIds` set (the completion guard,
shared with the dispatcher as its `blocklist`); `bus` is the listener
registry of the private `#eventTarget`; `subs` records, in creation order,
the identifier of each subscription made through `subscribe()` (index `k`
is the subscription referenced by `Listener.subNext k` etc.); `closeHs`
records which subscriptions still have their close handler attached to the
socket's `close` event; `msgAttached` records whether `#messageHandler`
has been attached to the socket's `message` event; `slots` records which
single-slot legacy `on*` fields are assigned. -/
structure ClientState where
  completedIds : List String
  bus : List BusEntry
  subs : List String
  closeHs : List Nat
  msgAttached : Bool
  slots : List EvName
deriving DecidableEq, Repr

/-- The state of a freshly constructed client. -/
def initState : ClientState :=
  { completedIds := [], bus := [], subs := [], closeHs := [],
    msgAttached := false, slots := [] }

/-- Invoke one listener on event data `d` dispatched under event name
`name`.  Mirrors the bodies of `createNextHandler`, `createErrorHandler`
and `createCompletedHandler`: the next/error handlers fire their captured
callback only when the event's `id` equals the subscription's id; the
completed handler first invokes the queued-subscribe disposer, then the
id-filtered `onComplete` callback, then removes the subscription's
next/error listeners. -/
def invoke (st : ClientState) (name : EvName) (l : Listener) (d : EvData) :
    ClientState × List Act :=
  match l with
  | .user t => (st, [.userHit t name d])
  | .subNext k =>
    match d with
    | .msg (.next mid p) =>
      if st.subs[k]? = some mid then (st, [.cbNext mid p]) else (st, [])
    | _ => (st, [])
  | .subError k =>
    match d with
    | .msg (.error mid ps) =>
      if st.subs[k]? = some mid then (st, [.cbError mid ps]) else (st, [])
    | _ => (st, [])
  | .subCompleted k =>
    let cbActs : List Act :=
      match d with
      | .msg m =>
        match m.msgId with
        | some mid => if st.subs[k]? = some mid then [.cbComplete mid] else []
        | none => []
      | _ => []
    let bus' := st.bus.filter fun e =>
      !(e.name == .next && e.l == .subNext k) &&
      !(e.name == .error && e.l == .subError k)
    ({ st with bus := bus' }, .dispose k :: cbActs)

/-- Run the snapshot of listeners taken at dispatch time, in registration
order.  A listener is invoked only if it is still present in the registry
when its turn comes (listeners removed mid-dispatch are skipped); a
`once` listener is removed from the registry before it is invoked. -/
def runListeners (name : EvName) (d : EvData) :
    ClientState → List BusEntry → ClientState × List Act
  | st, [] => (st, [])
  | st, e :: rest =>
    if st.bus.contains e then
      let st1 := if e.once
        then { st with bus := st.bus.filter fun x => !(x.name == e.name && x.l == e.l) }
        else st
      let r1 := invoke st1 name e.l d
      let r2 := runListeners name d r1.1 rest
      (r2.1, r1.2 ++ r2.2)
    else runListeners name d st rest

/-- `dispatchEvent` on the internal event target: record the event, then
invoke the listeners registered under its name, in order. -/
def dispatchBus (st : ClientState) (name : EvName) (d : EvData) :
    ClientState × List Act :=
  let r := runListeners name d st (st.bus.filter (·.name == name))
  (r.1, .busEvent name d :: r.2)

/-- Dispatch a decoded message's typed event: first `dispatchEvent` on the
event target, then the single-slot legacy handler for the variant, if
assigned — the order used by every branch of `createMessageDispatcher`. -/
def plainDispatch (st : ClientState) (name : EvName) (m : Message) :
    ClientState × List Act :=
  let r := dispatchBus st name (.msg m)
  (r.1, r.2 ++ if st.slots.contains name then [.slotHit name (.msg m)] else [])

/-- `createMessageDispatcher`: route one decoded message.  `Next` and
`Error` are dispatched only when their id is not in the blocklist;
`Complete` additionally adds its id to the blocklist before dispatching,
and is suppressed when the id is already present. -/
def handleParsed (st : ClientState) (m : Message) : ClientState × List Act :=
  match m with
  | .connectionInit p => plainDispatch st .connectioninit (.connectionInit p)
  | .connectionAck p => plainDispatch st .connectionack (.connectionAck p)
  | .ping p => plainDispatch st .ping (.ping p)
  | .pong p => plainDispatch st .pong (.pong p)
  | .subscribe i q => plainDispatch st .subscribe (.subscribe i q)
  | .next i p =>
    if st.completedIds.contains i then (st, [])
    else plainDispatch st .next (.next i p)
  | .error i ps =>
    if st.completedIds.contains i then (st, [])
    else plainDispatch st .error (.error i ps)
  | .complete i =>
    if st.completedIds.contains i then (st, [])
    else plainDispatch { st with completedIds := i :: st.completedIds }
      .complete (.complete i)

/-- An inbound transport payload, abstracted through the codec contract:
either a decoded message or a decode failure with its description. -/
inductive Raw where
  | good (m : Message)
  | bad (desc : String)
deriving DecidableEq, Repr

/-- A `message` event firing on the socket.  If `#messageHandler` is not
attached nothing happens; otherwise `createMessageEventHandler` runs: a
decode failure dispatches the `unknown` event (no single-slot handler
exists for it), a decoded message goes to the dispatcher. -/
def handleRaw (st : ClientState) (r : Raw) : ClientState × List Act :=
  if st.msgAttached then
    match r with
    | .bad d => dispatchBus st .unknown (.desc d)
    | .good m => handleParsed st m
  else (st, [])

/-- `subscribe()`: allocate the next subscription index, register the
scoped next/error listeners and the once-only completed handler on the
event target (through `addEventListener`, which also attaches
`#messageHandler` to the socket), register the once-only close handler on
the socket, and hand the `Subscribe` frame to the sender.  The identifier
is a parameter (the code draws it from a random-identifier generator). -/
def subscribeOp (st : ClientState) (sid : String) (params : String) :
    ClientState × List Act :=
  let k := st.subs.length
  ({ st with
      bus := st.bus ++
        [⟨.next, .subNext k, false⟩, ⟨.error, .subError k, false⟩,
         ⟨.complete, .subCompleted k, true⟩],
      subs := st.subs ++ [sid],
      closeHs := st.closeHs ++ [k],
      msgAttached := true },
   [.send (.subscribe sid params)])

/-- Public `error(id, payload)`: send the `Error` frame only when the id is
not yet in the completion guard, adding it. -/
def errorCall (st : ClientState) (i : String) (ps : List String) :
    ClientState × List Act :=
  if st.completedIds.contains i then (st, [])
  else ({ st with completedIds := i :: st.completedIds },
        [.send (.error i ps)])

/-- Public `complete(id)`: send the `Complete` frame only when the id is
not yet in the completion guard, adding it. -/
def completeCall (st : ClientState) (i : String) : ClientState × List Act :=
  if st.completedIds.contains i then (st, [])
  else ({ st with completedIds := i :: st.completedIds },
        [.send (.complete i)])

/-- Remove, from a listener registry, the three scoped listeners of
subscription `k` — the body of `createCloseHandler`. -/
def removeSubEntries (bus : List BusEntry) (k : Nat) : List BusEntry :=
  bus.filter fun e =>
    !(e.name == .next && e.l == .subNext k) &&
    !(e.name == .error && e.l == .subError k) &&
    !(e.name == .complete && e.l == .subCompleted k)

/-- The socket's `close` event firing: every still-attached close handler
runs (each was registered with `once`), detaching its subscription's
next/error/complete listeners; no callback is invoked. -/
def fireClose (st : ClientState) : ClientState × List Act :=
  ({ st with bus := st.closeHs.foldl removeSubEntries st.bus, closeHs := [] },
   [])

/-- Public `addEventListener(name, listener)` with a caller listener:
registers it on the event target and attaches `#messageHandler` to the
socket's `message` event. -/
def addListenerOp (st : ClientState) (name : EvName) (t : Nat) :
    ClientState × List Act :=
  ({ st with bus := st.bus ++ [⟨name, .user t, false⟩], msgAttached := true },
   [])

/-- Assigning a single-slot legacy `on*` field. -/
def setSlotOp (st : ClientState) (name : EvName) : ClientState × List Act :=
  ({ st with slots := name :: st.slots }, [])

/-- One of the simple outbound send methods
(`connectionInit`, `connectionAck`, `ping`, `pong`, `next`): hand the
frame to the sender unconditionally. -/
def plainSend (st : ClientState) (m : Message) : ClientState × List Act :=
  (st, [.send m])

/-- The external stimuli a client instance can receive: public API calls,
inbound socket `message` events, and the socket `close` event. -/
inductive Op where
  | sub (sid params : String)
  | errC (i : String) (ps : List String)
  | compC (i : String)
  | connInitC (p : Option String)
  | connAckC (p : Option String)
  | pingC (p : Option String)
  | pongC (p : Option String)
  | nextC (i payload : String)
  | addL (name : EvName) (t : Nat)
  | setS (name : EvName)
  | inbound (r : Raw)
  | closeEv
deriving DecidableEq, Repr

/-- Apply one stimulus to the client. -/
def step (st : ClientState) : Op → ClientState × List Act
  | .sub sid params => subscribeOp st sid params
  | .errC i ps => errorCall st i ps
  | .compC i => completeCall st i
  | .connInitC p => plainSend st (.connectionInit p)
  | .connAckC p => plainSend st (.connectionAck p)
  | .pingC p => plainSend st (.ping p)
  | .pongC p => plainSend st (.pong p)
  | .nextC i payload => plainSend st (.next i payload)
  | .addL name t => addListenerOp st name t
  | .setS name => setSlotOp st name
  | .inbound r => handleRaw st r
  | .closeEv => fireClose st

/-- Apply a sequence of stimuli, accumulating the trace. -/
def runOps (st : ClientState) : List Op → ClientState × List Act
  | [] => (st, [])
  | op :: rest =>
    let r1 := step st op
    let r2 := runOps r1.1 rest
    (r2.1, r1.2 ++ r2.2)

/-! ### Structural helper lemmas -/

/-- Two states agreeing on every field except possibly the listener
registry. -/
def SameExceptBus (s t : ClientState) : Prop :=
  s.completedIds = t.completedIds ∧ s.subs = t.subs ∧ s.closeHs = t.closeHs ∧
  s.msgAttached = t.msgAttached ∧ s.slots = t.slots

theorem sameExceptBus_refl (s : ClientState) : SameExceptBus s s :=
  ⟨rfl, rfl, rfl, rfl, rfl⟩

theorem sameExceptBus_trans {s t u : ClientState}
    (h1 : SameExceptBus s t) (h2 : SameExceptBus t u) : SameExceptBus s u :=
  ⟨h1.1.trans h2.1, h1.2.1.trans h2.2.1, h1.2.2.1.trans h2.2.2.1,
   h1.2.2.2.1.trans h2.2.2.2.1, h1.2.2.2.2.trans h2.2.2.2.2⟩

/-- A listener invocation never changes anything but the registry. -/
theorem invoke_same (st : ClientState) (name : EvName) (l : Listener)
    (d : EvData) : SameExceptBus (invoke st name l d).1 st := by
  cases l with
  | user t => exact sameExceptBus_refl st
  | subNext k =>
    cases d with
    | desc s => exact sameExceptBus_refl st
    | msg m =>
      cases m <;> simp only [invoke] <;> first
        | exact sameExceptBus_refl st
        | (split <;> exact sameExceptBus_refl st)
  | subError k =>
    cases d with
    | desc s => exact sameExceptBus_refl st
    | msg m =>
      cases m <;> simp only [invoke] <;> first
        | exact sameExceptBus_refl st
        | (split <;> exact sameExceptBus_refl st)
  | subCompleted k => exact ⟨rfl, rfl, rfl, rfl, rfl⟩

/-- Running a listener snapshot never changes anything but the registry. -/
theorem runListeners_same (name : EvName) (d : EvData) :
    ∀ (snap : List BusEntry) (st : ClientState),
      SameExceptBus (runListeners name d st snap).1 st := by
  intro snap
  induction snap with
  | nil => intro st; exact sameExceptBus_refl st
  | cons e rest ih =>
    intro st
    simp only [runListeners]
    split
    · exact sameExceptBus_trans (ih _) <| sameExceptBus_trans
        (invoke_same _ name e.l d) (by split <;> exact sameExceptBus_refl st)
    · exact ih st

/-- Dispatching an event never changes anything but the registry. -/
theorem dispatchBus_same (st : ClientState) (name : EvName) (d : EvData) :
    SameExceptBus (dispatchBus st name d).1 st :=
  runListeners_same name d _ st

/-- Full message dispatch never changes anything but the registry. -/
theorem plainDispatch_same (st : ClientState) (name : EvName) (m : Message) :
    SameExceptBus (plainDispatch st name m).1 st :=
  dispatchBus_same st name (.msg m)

/-- Actions that can be produced by a bus listener: callbacks, user
listener hits and disposer invocations, but never sender invocations,
single-slot hits or further event dispatches. -/
def Act.fromListener : Act → Bool
  | .userHit _ _ _ => true
  | .cbNext _ _ => true
  | .cbError _ _ => true
  | .cbComplete _ => true
  | .dispose _ => true
  | _ => false

theorem invoke_acts (st : ClientState) (name : EvName) (l : Listener)
    (d : EvData) : ∀ a ∈ (invoke st name l d).2, a.fromListener = true := by
  cases l with
  | user t => intro a ha; simp only [invoke, List.mem_singleton] at ha
              subst ha; rfl
  | subNext k =>
    intro a ha
    cases d with
    | desc s => simp [invoke] at ha
    | msg m =>
      cases m <;> simp only [invoke] at ha <;>
        first
          | simp at ha
          | (split at ha <;> simp at ha
             · subst ha; rfl)
  | subError k =>
    intro a ha
    cases d with
    | desc s => simp [invoke] at ha
    | msg m =>
      cases m <;> simp only [invoke] at ha <;>
        first
          | simp at ha
          | (split at ha <;> simp at ha
             · subst ha; rfl)
  | subCompleted k =>
    intro a ha
    simp only [invoke, List.mem_cons] at ha
    rcases ha with h | h
    · subst h; rfl
    · rcases d with m | s
      · rcases hm : m.msgId with _ | mid <;> simp [hm] at h
        rcases h with ⟨-, rfl⟩; rfl
      · simp at h

theorem runListeners_acts (name : EvName) (d : EvData) :
    ∀ (snap : List BusEntry) (st : ClientState),
      ∀ a ∈ (runListeners name d st snap).2, a.fromListener = true := by
  intro snap
  induction snap with
  | nil => intro st a ha; simp [runListeners] at ha
  | cons e rest ih =>
    intro st a ha
    simp only [runListeners] at ha
    split at ha
    · simp only [List.mem_append] at ha
      rcases ha with h | h
      · exact invoke_acts _ name e.l d a h
      · exact ih _ a h
    · exact ih st a ha

/-- Well-formedness of the listener registry, true of every reachable
state: each subscription-scoped listener is registered under the event
name `subscribe()` wired it for (next/error handlers without `once`, the
completed handler with `once`), and caller listeners carry no `once`. -/
def wb (st : ClientState) : Bool :=
  st.bus.all fun e =>
    match e.l with
    | .subNext _ => e.name == .next && !e.once
    | .subError _ => e.name == .error && !e.once
    | .subCompleted _ => e.name == .complete && e.once
    | .user _ => !e.once

/-- Invoking a next, error or user listener changes no state at all. -/
theorem invoke_pure (name : EvName) (d : EvData) (l : Listener)
    (h : ∀ k, l ≠ Listener.subCompleted k) :
    ∀ st, (invoke st name l d).1 = st := by
  intro st
  cases l with
  | user t => rfl
  | subNext k =>
    cases d with
    | desc s => rfl
    | msg m => cases m <;> simp only [invoke] <;>
        first | rfl | (split <;> rfl)
  | subError k =>
    cases d with
    | desc s => rfl
    | msg m => cases m <;> simp only [invoke] <;>
        first | rfl | (split <;> rfl)
  | subCompleted k => exact absurd rfl (h k)

/-- If every listener in the snapshot is still registered, not `once`
and state-pure, then running the snapshot leaves the state intact and
emits the concatenation of the individual listeners' actions. -/
theorem runListeners_pure (name : EvName) (d : EvData) (st : ClientState) :
    ∀ snap : List BusEntry,
      (∀ e ∈ snap, st.bus.contains e = true ∧ e.once = false ∧
        ∀ st2, (invoke st2 name e.l d).1 = st2) →
      runListeners name d st snap =
        (st, snap.foldr (fun e acc => (invoke st name e.l d).2 ++ acc) []) := by
  intro snap
  induction snap with
  | nil => intro _; rfl
  | cons e rest ih =>
    intro h
    obtain ⟨hc, ho, hp⟩ := h e (List.mem_cons_self e rest)
    have hrest := ih fun e' he' => h e' (List.mem_cons_of_mem e he')
    simp only [runListeners, hc, if_true, ho, Bool.false_eq_true, if_false,
      hp st, hrest, List.foldr_cons]

/-- An element contributed by a member of the fold base is in the fold. -/
theorem foldr_append_mem (f : BusEntry → List Act) :
    ∀ (snap : List BusEntry) (e : BusEntry), e ∈ snap →
      ∀ a ∈ f e, a ∈ snap.foldr (fun x acc => f x ++ acc) [] := by
  intro snap
  induction snap with
  | nil => intro e he; simp at he
  | cons x rest ih =>
    intro e he a ha
    simp only [List.foldr_cons, List.mem_append]
    rcases List.mem_cons.mp he with rfl | h
    · exact Or.inl ha
    · exact Or.inr (ih e h a ha)

/-- Every element of the fold is contributed by some member. -/
theorem foldr_append_mem_inv (f : BusEntry → List Act) :
    ∀ (snap : List BusEntry) (a : Act),
      a ∈ snap.foldr (fun x acc => f x ++ acc) [] →
      ∃ e ∈ snap, a ∈ f e := by
  intro snap
  induction snap with
  | nil => intro a ha; simp at ha
  | cons x rest ih =>
    intro a ha
    simp only [List.foldr_cons, List.mem_append] at ha
    rcases ha with h | h
    · exact ⟨x, List.mem_cons_self x rest, h⟩
    · obtain ⟨e, he, hfe⟩ := ih a h
      exact ⟨e, List.mem_cons_of_mem x he, hfe⟩

/-! ### Claim C1 -/

/-- C1: once an identifier is in the completion guard (put there by a
local `error(id, …)` or `complete(id)` call, or by the first dispatched
remote `Complete`), an arriving inbound `Next`, `Error` or `Complete`
message carrying it produces no dispatch at all — no bus event, no
single-slot handler, no state change; and after any dispatched remote
`Complete` for an id the guard contains that id, so remote completion
dispatch happens at most once per id. -/
theorem completion_guard_suppresses (st : ClientState) (i p : String)
    (ps : List String) (h : st.completedIds.contains i = true) :
    handleParsed st (.next i p) = (st, []) ∧
    handleParsed st (.error i ps) = (st, []) ∧
    handleParsed st (.complete i) = (st, []) ∧
    ∀ st2 : ClientState,
      (handleParsed st2 (.complete i)).1.completedIds.contains i = true := by
  have h' : i ∈ st.completedIds := by simpa using h
  refine ⟨by simp [handleParsed, h'], by simp [handleParsed, h'],
    by simp [handleParsed, h'], ?_⟩
  intro st2
  cases hb : st2.completedIds.contains i with
  | true =>
    have hb' : i ∈ st2.completedIds := by simpa using hb
    simp [handleParsed, hb']
  | false =>
    simp only [handleParsed, hb, Bool.false_eq_true, if_false]
    rw [(plainDispatch_same { st2 with completedIds := i :: st2.completedIds }
      .complete (.complete i)).1]
    simp

/-- Witness for C1 at a concrete finalized identifier. -/
theorem completion_guard_suppresses_witness :
    handleParsed (completeCall initState "a").1 (Message.next "a" "p") =
      ((completeCall initState "a").1, []) :=
  (completion_guard_suppresses (completeCall initState "a").1 "a" "p" []
    (by decide)).1

/-! ### Claim C2 -/

/-- Does this action hand the sender a terminal (`Error`/`Complete`)
frame for identifier `i`? -/
def Act.isTerminalFor (i : String) : Act → Bool
  | .send (.error j _) => j == i
  | .send (.complete j) => j == i
  | _ => false

/-- Number of terminal frames for `i` handed to the sender in a trace. -/
def countTerm (i : String) (acts : List Act) : Nat :=
  acts.countP (Act.isTerminalFor i)

theorem countTerm_append (i : String) (xs ys : List Act) :
    countTerm i (xs ++ ys) = countTerm i xs + countTerm i ys :=
  List.countP_append _ _ _

theorem fromListener_not_terminal (i : String) (a : Act)
    (h : a.fromListener = true) : a.isTerminalFor i = false := by
  cases a <;> simp_all [Act.fromListener, Act.isTerminalFor]

/-- Inbound dispatch hands nothing to the sender: no terminal frames. -/
theorem handleParsed_no_terminal (st : ClientState) (m : Message)
    (i : String) : countTerm i (handleParsed st m).2 = 0 := by
  have key : ∀ (st' : ClientState) (name : EvName) (m' : Message),
      countTerm i (plainDispatch st' name m').2 = 0 := by
    intro st' name m'
    rw [countTerm, List.countP_eq_zero]
    intro a ha
    simp only [plainDispatch, dispatchBus, List.mem_append, List.mem_cons] at ha
    rcases ha with (rfl | h) | h
    · simp [Act.isTerminalFor]
    · simp [fromListener_not_terminal i a
        (runListeners_acts name (.msg m') _ _ a h)]
    · split at h
      · simp only [List.mem_singleton] at h; subst h
        simp [Act.isTerminalFor]
      · simp at h
  cases m <;> simp only [handleParsed] <;>
    first
    | apply key
    | (split
       · simp [countTerm]
       · apply key)

/-- The completion guard only grows: across any single stimulus, a
contained identifier stays contained. -/
theorem step_guard_mono (st : ClientState) (op : Op) (i : String)
    (h : st.completedIds.contains i = true) :
    (step st op).1.completedIds.contains i = true := by
  have hpd : ∀ (st' : ClientState) (name : EvName) (m : Message),
      (plainDispatch st' name m).1.completedIds = st'.completedIds :=
    fun st' name m => (plainDispatch_same st' name m).1
  have hcons : ∀ (j : String) (l : List String),
      l.contains i = true → (j :: l).contains i = true := by
    intro j l hl
    have : i ∈ l := by simpa using hl
    simp [this]
  cases op with
  | sub sid params => exact h
  | errC j ps =>
    simp only [step, errorCall]
    split
    · exact h
    · exact hcons j _ h
  | compC j =>
    simp only [step, completeCall]
    split
    · exact h
    · exact hcons j _ h
  | connInitC p => exact h
  | connAckC p => exact h
  | pingC p => exact h
  | pongC p => exact h
  | nextC j payload => exact h
  | addL name t => exact h
  | setS name => exact h
  | closeEv => exact h
  | inbound r =>
    simp only [step, handleRaw]
    split
    · cases r with
      | bad d =>
        rw [(dispatchBus_same st .unknown (.desc d)).1]
        exact h
      | good m =>
        cases m <;> simp only [handleParsed] <;>
          first
          | (rw [hpd]; exact h)
          | (split
             · exact h
             · first
               | (rw [hpd]; exact h)
               | (rw [hpd]; exact hcons _ _ h))
    · exact h

/-- Across any single stimulus, the number of terminal frames for `i`
handed to the sender plus the guard budget afterwards is bounded by the
guard budget before. -/
theorem step_term_bound (st : ClientState) (op : Op) (i : String) :
    countTerm i (step st op).2 +
      (if (step st op).1.completedIds.contains i then 0 else 1) ≤
    (if st.completedIds.contains i then 0 else 1) := by
  have hterm : ∀ j (m : Message), m.msgId = some j → (j == i) = false →
      Act.isTerminalFor i (.send m) = false := by
    intro j m hj hji
    cases m <;> simp_all [Message.msgId, Act.isTerminalFor]
  cases op with
  | errC j ps =>
    simp only [step, errorCall]
    split
    · simp [countTerm]
    · rename_i hj
      have hj' : j ∉ st.completedIds := by simpa using hj
      cases hji : (j == i) with
      | true =>
        have hji' : j = i := by simpa using hji
        subst hji'
        have hmem : (j :: st.completedIds).contains j = true := by simp
        simp [countTerm, List.countP_cons, Act.isTerminalFor, hmem, hj']
      | false =>
        have hne : i ≠ j := by intro hh; subst hh; simp at hji
        have hcc : (j :: st.completedIds).contains i =
            st.completedIds.contains i := by
          simp [List.contains_cons, hne]
        rw [hcc]
        simp only [countTerm, List.countP_cons, List.countP_nil,
          Act.isTerminalFor, hji, Bool.false_eq_true, if_false]
        omega
  | compC j =>
    simp only [step, completeCall]
    split
    · simp [countTerm]
    · rename_i hj
      have hj' : j ∉ st.completedIds := by simpa using hj
      cases hji : (j == i) with
      | true =>
        have hji' : j = i := by simpa using hji
        subst hji'
        have hmem : (j :: st.completedIds).contains j = true := by simp
        simp [countTerm, List.countP_cons, Act.isTerminalFor, hmem, hj']
      | false =>
        have hne : i ≠ j := by intro hh; subst hh; simp at hji
        have hcc : (j :: st.completedIds).contains i =
            st.completedIds.contains i := by
          simp [List.contains_cons, hne]
        rw [hcc]
        simp only [countTerm, List.countP_cons, List.countP_nil,
          Act.isTerminalFor, hji, Bool.false_eq_true, if_false]
        omega
  | sub sid params =>
    simp only [step, subscribeOp]
    simp only [countTerm, List.countP_cons, List.countP_nil, Act.isTerminalFor,
      Bool.false_eq_true, if_false]
    omega
  | connInitC p => simp [step, plainSend, countTerm, Act.isTerminalFor]
  | connAckC p => simp [step, plainSend, countTerm, Act.isTerminalFor]
  | pingC p => simp [step, plainSend, countTerm, Act.isTerminalFor]
  | pongC p => simp [step, plainSend, countTerm, Act.isTerminalFor]
  | nextC j payload => simp [step, plainSend, countTerm, Act.isTerminalFor]
  | addL name t => simp [step, addListenerOp, countTerm]
  | setS name => simp [step, setSlotOp, countTerm]
  | closeEv => simp [step, fireClose, countTerm]
  | inbound r =>
    have hmono : st.completedIds.contains i = true →
        (step st (.inbound r)).1.completedIds.contains i = true :=
      step_guard_mono st (.inbound r) i
    have hcount : countTerm i (step st (.inbound r)).2 = 0 := by
      simp only [step, handleRaw]
      split
      · cases r with
        | bad d =>
          rw [countTerm, List.countP_eq_zero]
          intro a ha
          simp only [dispatchBus, List.mem_cons] at ha
          rcases ha with rfl | h
          · simp [Act.isTerminalFor]
          · simp [fromListener_not_terminal i a
              (runListeners_acts .unknown (.desc d) _ _ a h)]
        | good m => exact handleParsed_no_terminal st m i
      · simp [countTerm]
    rw [hcount]
    cases hb : st.completedIds.contains i with
    | true =>
      have h1 : i ∈ (step st (Op.inbound r)).1.completedIds := by
        simpa using hmono hb
      have hb' : i ∈ st.completedIds := by simpa using hb
      simp [h1, hb']
    | false =>
      simp only [hb, Bool.false_eq_true, if_false]
      split <;> omega

/-- Terminal-frame budget over a whole run: at most one terminal frame for
`i` while the guard does not contain `i`, none afterwards. -/
theorem runOps_term_bound (i : String) :
    ∀ (ops : List Op) (st : ClientState),
      countTerm i (runOps st ops).2 ≤
        (if st.completedIds.contains i then 0 else 1) := by
  intro ops
  induction ops with
  | nil => intro st; simp [runOps, countTerm]
  | cons op rest ih =>
    intro st
    simp only [runOps]
    rw [countTerm_append]
    have h1 := step_term_bound st op i
    have h2 := ih (step st op).1
    omega

/-- C2: for every identifier, across any sequence of operations on a fresh
client, the sender is handed a terminal (`Error` or `Complete`) frame for
that identifier at most once — after the first successful `complete(id)` or
`error(id, …)` call, every later `complete(id)` or `error(id, …)` call
produces no outbound frame. -/
theorem terminal_frame_at_most_once (ops : List Op) (i : String) :
    countTerm i (runOps initState ops).2 ≤ 1 := by
  have h := runOps_term_bound i ops initState
  simpa [initState] using h

/-! ### Claim C3 -/

/-- C3 counterexample: the completed handler registered by `subscribe()`
is a `once` listener on the `complete` event with no identifier filter, so
a dispatched inbound `Complete` carrying a DIFFERENT identifier (here
`"b"`, for a subscription with identifier `"a"`) still invokes the
not-yet-sent `Subscribe` frame's disposer and detaches the subscription's
next/error listeners — refuting the claim that such a `Complete` leaves
the listeners attached and the pending frame uncancelled.  Only the
caller's `onComplete` is identifier-filtered. -/
theorem different_id_complete_still_detaches :
    Act.dispose 0 ∈
      (handleParsed (subscribeOp initState "a" "q").1 (Message.complete "b")).2 ∧
    (BusEntry.mk .next (.subNext 0) false) ∉
      (handleParsed (subscribeOp initState "a" "q").1 (Message.complete "b")).1.bus ∧
    (BusEntry.mk .error (.subError 0) false) ∉
      (handleParsed (subscribeOp initState "a" "q").1 (Message.complete "b")).1.bus ∧
    Act.cbComplete "a" ∉
      (handleParsed (subscribeOp initState "a" "q").1 (Message.complete "b")).2 := by
  decide

/-- C3 amended: for a subscription created by `subscribe()`, the first
dispatched inbound `Complete` — whatever identifier it carries — invokes
the pending `Subscribe` frame's disposer and detaches the subscription's
next/error (and completed) listeners; the caller's `onComplete` is invoked
exactly when the `Complete` message's identifier matches the
subscription's. -/
theorem inbound_complete_teardown (sid cid q : String) :
    Act.dispose 0 ∈
      (handleParsed (subscribeOp initState sid q).1 (Message.complete cid)).2 ∧
    (Act.cbComplete sid ∈
      (handleParsed (subscribeOp initState sid q).1 (Message.complete cid)).2 ↔
      sid = cid) ∧
    (∀ b, BusEntry.mk .next (.subNext 0) b ∉
      (handleParsed (subscribeOp initState sid q).1 (Message.complete cid)).1.bus) ∧
    (∀ b, BusEntry.mk .error (.subError 0) b ∉
      (handleParsed (subscribeOp initState sid q).1 (Message.complete cid)).1.bus) ∧
    (∀ b, BusEntry.mk .complete (.subCompleted 0) b ∉
      (handleParsed (subscribeOp initState sid q).1 (Message.complete cid)).1.bus) := by
  by_cases h : sid = cid
  · subst h
    simp [subscribeOp, initState, handleParsed, plainDispatch, dispatchBus,
      runListeners, invoke, Message.msgId]
  · simp [subscribeOp, initState, handleParsed, plainDispatch, dispatchBus,
      runListeners, invoke, Message.msgId, h]

/-! ### Claim C4 -/

/-- Is this action a single-slot legacy handler invocation? -/
def Act.isSlotHit : Act → Bool
  | .slotHit _ _ => true
  | _ => false

/-- Is the message free of the dispatcher's blocklist guard in this
state (always true for the variants that carry no identifier)? -/
def guardOk (st : ClientState) (m : Message) : Bool :=
  match m with
  | .next i _ => !st.completedIds.contains i
  | .error i _ => !st.completedIds.contains i
  | .complete i => !st.completedIds.contains i
  | _ => true

/-- C4 counterexample: with the `onnext` single slot assigned and one bus
listener registered for `next`, dispatching an inbound `Next` invokes the
bus listener strictly before the single-slot handler — refuting the
claimed slot-first order. -/
theorem slot_not_before_bus :
    ¬ ((handleParsed ((setSlotOp (addListenerOp initState .next 0).1 .next).1)
          (Message.next "a" "p")).2.indexOf
            (Act.slotHit .next (.msg (.next "a" "p"))) <
        (handleParsed ((setSlotOp (addListenerOp initState .next 0).1 .next).1)
          (Message.next "a" "p")).2.indexOf
            (Act.userHit 0 .next (.msg (.next "a" "p")))) := by
  decide

/-- The action trace of a full dispatch decomposes as the bus dispatch
(the event record followed by listener actions, none of which is a slot
hit) followed by the slot hit when the slot is assigned. -/
theorem plainDispatch_shape (st : ClientState) (name : EvName) (m : Message) :
    ∃ pre, (plainDispatch st name m).2 =
        pre ++ (if st.slots.contains name
                then [Act.slotHit name (.msg m)] else []) ∧
      pre.head? = some (Act.busEvent name (.msg m)) ∧
      ∀ a ∈ pre, a.isSlotHit = false := by
  refine ⟨Act.busEvent name (.msg m) ::
    (runListeners name (.msg m) st (st.bus.filter (·.name == name))).2,
    rfl, rfl, ?_⟩
  intro a ha
  rcases List.mem_cons.mp ha with rfl | hmem
  · rfl
  · have hfl := runListeners_acts name (.msg m) _ _ a hmem
    cases a <;> simp_all [Act.fromListener, Act.isSlotHit]

/-- C4 amended: for every decoded message that passes the blocklist guard,
the dispatcher delivers its typed event to the multi-listener bus FIRST
(the bus event record heads the trace and every bus-listener action
precedes any slot action) and to the single-slot legacy handler for the
variant SECOND (as the final action, when assigned) — the reverse of the
claimed order. -/
theorem bus_before_slot (st : ClientState) (m : Message)
    (h : guardOk st m = true) :
    ∃ pre, (handleParsed st m).2 =
        pre ++ (if st.slots.contains m.variantName
                then [Act.slotHit m.variantName (.msg m)] else []) ∧
      pre.head? = some (Act.busEvent m.variantName (.msg m)) ∧
      ∀ a ∈ pre, a.isSlotHit = false := by
  cases m with
  | connectionInit p => exact plainDispatch_shape st .connectioninit _
  | connectionAck p => exact plainDispatch_shape st .connectionack _
  | ping p => exact plainDispatch_shape st .ping _
  | pong p => exact plainDispatch_shape st .pong _
  | subscribe i q => exact plainDispatch_shape st .subscribe _
  | next i p =>
    have hc : st.completedIds.contains i = false := by
      simpa [guardOk, Bool.not_eq_true'] using h
    simp only [handleParsed, hc, Bool.false_eq_true, if_false]
    exact plainDispatch_shape st .next _
  | error i ps =>
    have hc : st.completedIds.contains i = false := by
      simpa [guardOk, Bool.not_eq_true'] using h
    simp only [handleParsed, hc, Bool.false_eq_true, if_false]
    exact plainDispatch_shape st .error _
  | complete i =>
    have hc : st.completedIds.contains i = false := by
      simpa [guardOk, Bool.not_eq_true'] using h
    simp only [handleParsed, hc, Bool.false_eq_true, if_false]
    exact plainDispatch_shape { st with completedIds := i :: st.completedIds }
      .complete _

/-- Witness for C4 amended at a concrete state and message. -/
theorem bus_before_slot_witness :
    ∃ pre, (handleParsed initState (Message.ping none)).2 =
        pre ++ (if initState.slots.contains (Message.ping none).variantName
                then [Act.slotHit (Message.ping none).variantName
                        (.msg (.ping none))] else []) ∧
      pre.head? = some (Act.busEvent (Message.ping none).variantName
        (.msg (.ping none))) ∧
      ∀ a ∈ pre, a.isSlotHit = false :=
  bus_before_slot initState (.ping none) (by decide)

/-! ### Claim C5 -/

/-- In a well-formed registry, every listener in the snapshot for a
non-`complete` event name is still registered, not `once`, and pure. -/
theorem snapshot_pure (st : ClientState) (hwb : wb st = true) (name : EvName)
    (hn : name ≠ EvName.complete) (d : EvData) :
    ∀ e ∈ st.bus.filter (·.name == name),
      st.bus.contains e = true ∧ e.once = false ∧
      ∀ st2, (invoke st2 name e.l d).1 = st2 := by
  intro e he
  have hmem : e ∈ st.bus := (List.mem_filter.mp he).1
  have hname : e.name = name := by simpa using (List.mem_filter.mp he).2
  have hwbe := (List.all_eq_true.mp hwb) e hmem
  have hcont : st.bus.contains e = true := by simpa using hmem
  cases hl : e.l with
  | subNext k =>
    rw [hl] at hwbe
    simp only [Bool.and_eq_true, Bool.not_eq_true'] at hwbe
    exact ⟨hcont, hwbe.2,
      invoke_pure name d _ (fun k2 => by simp) ⟩
  | subError k =>
    rw [hl] at hwbe
    simp only [Bool.and_eq_true, Bool.not_eq_true'] at hwbe
    exact ⟨hcont, hwbe.2,
      invoke_pure name d _ (fun k2 => by simp) ⟩
  | subCompleted k =>
    rw [hl] at hwbe
    simp only [Bool.and_eq_true] at hwbe
    have hec : e.name = EvName.complete := by simpa using hwbe.1
    exact absurd (hname.symm.trans hec) hn
  | user t =>
    rw [hl] at hwbe
    simp only [Bool.not_eq_true'] at hwbe
    exact ⟨hcont, hwbe, invoke_pure name d _ (fun k2 => by simp) ⟩

/-- Dispatching a non-`complete` event in a well-formed registry leaves
the state untouched and emits the event record followed by each still-
registered listener's actions in order. -/
theorem dispatch_pure (st : ClientState) (hwb : wb st = true) (name : EvName)
    (hn : name ≠ EvName.complete) (d : EvData) :
    dispatchBus st name d =
      (st, .busEvent name d ::
        (st.bus.filter (·.name == name)).foldr
          (fun e acc => (invoke st name e.l d).2 ++ acc) []) := by
  simp only [dispatchBus,
    runListeners_pure name d st _ (snapshot_pure st hwb name hn d)]

/-- C5: while a subscription is active (its error listener attached, its
identifier not in the completion guard), a dispatched inbound `Error`
message with the matching identifier invokes the caller's `onError` with
the payload list and changes NOTHING: the resulting state equals the
starting state, so the identifier is not added to the guard, the
next/error listeners stay attached, and an identical later `Error`
dispatch behaves identically — `onError` can fire any number of times for
one identifier. -/
theorem inbound_error_keeps_active (st : ClientState) (i : String)
    (ps : List String) (k : Nat)
    (hwb : wb st = true)
    (hguard : st.completedIds.contains i = false)
    (hmem : (BusEntry.mk .error (.subError k) false) ∈ st.bus)
    (hid : st.subs[k]? = some i) :
    (handleParsed st (.error i ps)).1 = st ∧
    Act.cbError i ps ∈ (handleParsed st (.error i ps)).2 := by
  have hd := dispatch_pure st hwb .error (by decide) (.msg (.error i ps))
  constructor
  · simp only [handleParsed, hguard, Bool.false_eq_true, if_false,
      plainDispatch, hd]
  · simp only [handleParsed, hguard, Bool.false_eq_true, if_false,
      plainDispatch, hd]
    have hsnap : (BusEntry.mk .error (.subError k) false) ∈
        st.bus.filter (·.name == EvName.error) :=
      List.mem_filter.mpr ⟨hmem, by simp⟩
    have hact : Act.cbError i ps ∈
        (invoke st .error (.subError k) (.msg (.error i ps))).2 := by
      simp [invoke, hid]
    have := foldr_append_mem
      (fun e => (invoke st .error e.l (.msg (.error i ps))).2)
      _ _ hsnap _ hact
    simp only [List.mem_append, List.mem_cons]
    exact Or.inl (Or.inr this)

/-- Witness for C5 on a freshly subscribed client. -/
theorem inbound_error_keeps_active_witness :
    (handleParsed (subscribeOp initState "a" "q").1
      (Message.error "a" ["boom"])).1 = (subscribeOp initState "a" "q").1 :=
  (inbound_error_keeps_active (subscribeOp initState "a" "q").1 "a" ["boom"] 0
    (by decide) (by decide) (by decide) (by decide)).1

/-! ### Claim C6 -/

/-- Removal steps never re-add an entry. -/
theorem removeSubEntries_absent (e : BusEntry) (bus : List BusEntry)
    (j : Nat) (h : e ∉ bus) : e ∉ removeSubEntries bus j := by
  intro hm
  exact h (List.mem_filter.mp hm).1

/-- Absence survives the whole close-handler fold. -/
theorem foldl_remove_absent (e : BusEntry) :
    ∀ (l : List Nat) (bus : List BusEntry), e ∉ bus →
      e ∉ l.foldl removeSubEntries bus := by
  intro l
  induction l with
  | nil => intro bus h; simpa using h
  | cons j rest ih =>
    intro bus h
    exact ih _ (removeSubEntries_absent e bus j h)

/-- If some member of the list targets `k`, every entry scoped to `k` is
gone after the fold. -/
theorem foldl_remove_kills (k : Nat) (e : BusEntry)
    (hself : ∀ bus : List BusEntry, e ∉ removeSubEntries bus k) :
    ∀ (l : List Nat) (bus : List BusEntry), k ∈ l →
      e ∉ l.foldl removeSubEntries bus := by
  intro l
  induction l with
  | nil => intro bus hk; simp at hk
  | cons j rest ih =>
    intro bus hk
    rcases List.mem_cons.mp hk with rfl | h
    · exact foldl_remove_absent e rest _ (hself bus)
    · exact ih _ h

/-- C6: when the socket's `close` event fires while a subscription's close
handler is still attached, the subscription's next, error and complete
listeners are all detached and the teardown performs no observable action
at all — in particular none of the caller's `onNext`/`onError`/`onComplete`
callbacks is invoked. -/
theorem close_detaches_silently (st : ClientState) (k : Nat)
    (h : k ∈ st.closeHs) :
    (fireClose st).2 = [] ∧
    ∀ b, BusEntry.mk .next (.subNext k) b ∉ (fireClose st).1.bus ∧
         BusEntry.mk .error (.subError k) b ∉ (fireClose st).1.bus ∧
         BusEntry.mk .complete (.subCompleted k) b ∉ (fireClose st).1.bus := by
  refine ⟨rfl, fun b => ⟨?_, ?_, ?_⟩⟩
  · exact foldl_remove_kills k _
      (fun bus hm => by have hpe := (List.mem_filter.mp hm).2; simp at hpe)
      st.closeHs st.bus h
  · exact foldl_remove_kills k _
      (fun bus hm => by have hpe := (List.mem_filter.mp hm).2; simp at hpe)
      st.closeHs st.bus h
  · exact foldl_remove_kills k _
      (fun bus hm => by have hpe := (List.mem_filter.mp hm).2; simp at hpe)
      st.closeHs st.bus h

/-- Witness for C6 on a freshly subscribed client. -/
theorem close_detaches_silently_witness :
    (fireClose (subscribeOp initState "a" "q").1).2 = [] :=
  (close_detaches_silently (subscribeOp initState "a" "q").1 0 (by decide)).1

/-! ### Claim C7 -/

/-- C7: with the message handler attached and a well-formed registry, a
decode failure makes the router dispatch exactly one `unknown` event
carrying the failure description: the state is untouched, the trace is
the single `unknown` event record followed only by invocations of bus
listeners registered for `unknown` — no per-variant handler, slot or
subscription callback runs, and the (total) handler returns normally, so
no exception propagates. -/
theorem decode_failure_unknown (st : ClientState) (d : String)
    (hwb : wb st = true) (hatt : st.msgAttached = true) :
    (handleRaw st (.bad d)).1 = st ∧
    ∃ tail, (handleRaw st (.bad d)).2 =
        Act.busEvent .unknown (.desc d) :: tail ∧
      ∀ a ∈ tail, ∃ t, a = Act.userHit t .unknown (.desc d) := by
  have heq : handleRaw st (.bad d) = dispatchBus st .unknown (.desc d) := by
    simp [handleRaw, hatt]
  have hd := dispatch_pure st hwb .unknown (by decide) (.desc d)
  rw [heq, hd]
  refine ⟨rfl, _, rfl, ?_⟩
  intro a ha
  obtain ⟨e, he, hae⟩ := foldr_append_mem_inv _ _ a ha
  have hmem : e ∈ st.bus := (List.mem_filter.mp he).1
  have hname : e.name = EvName.unknown := by
    simpa using (List.mem_filter.mp he).2
  have hwbe := (List.all_eq_true.mp hwb) e hmem
  cases hl : e.l with
  | user t =>
    rw [hl] at hae
    simp only [invoke, List.mem_singleton] at hae
    exact ⟨t, hae⟩
  | subNext k =>
    rw [hl] at hwbe
    simp only [Bool.and_eq_true] at hwbe
    have hen : e.name = EvName.next := by simpa using hwbe.1
    rw [hname] at hen
    exact absurd hen (by decide)
  | subError k =>
    rw [hl] at hwbe
    simp only [Bool.and_eq_true] at hwbe
    have hen : e.name = EvName.error := by simpa using hwbe.1
    rw [hname] at hen
    exact absurd hen (by decide)
  | subCompleted k =>
    rw [hl] at hwbe
    simp only [Bool.and_eq_true] at hwbe
    have hen : e.name = EvName.complete := by simpa using hwbe.1
    rw [hname] at hen
    exact absurd hen (by decide)

/-- Witness for C7 on a client with one listener attached. -/
theorem decode_failure_unknown_witness :
    (handleRaw (addListenerOp initState .next 0).1 (Raw.bad "bad json")).1 =
      (addListenerOp initState .next 0).1 :=
  (decode_failure_unknown (addListenerOp initState .next 0).1 "bad json"
    (by decide) (by decide)).1

/-! ### Claim C8 -/

/-- Modelled from the spec: one entry of the Outbound Sender's
pending-send queue.  The sender implementation (`SenderImpl`, in
`utils.ts`) is not part of the source under study; spec sections 3 and
4.2 describe the queue as an ordered sequence of not-yet-transmitted
frames, each carrying a cancellation flag settable before flush. -/
structure PendEntry where
  frame : Message
  cancelled : Bool
deriving DecidableEq, Repr

/-- Modelled from the spec: a send call while the transport is not yet
ready appends the frame, uncancelled, to the queue. -/
def senderSend (q : List PendEntry) (m : Message) : List PendEntry :=
  q ++ [⟨m, false⟩]

/-- Modelled from the spec: a subscribe disposer invoked before flush
sets the cancellation flag of its entry. -/
def disposeEntry : List PendEntry → Nat → List PendEntry
  | [], _ => []
  | e :: rest, 0 => { e with cancelled := true } :: rest
  | e :: rest, n + 1 => e :: disposeEntry rest n

/-- Modelled from the spec: the transport-ready flush transmits the
queued frames in FIFO order, skipping cancelled entries. -/
def flushPending (q : List PendEntry) : List Message :=
  (q.filter (fun e => !e.cancelled)).map PendEntry.frame

theorem flushPending_cons (e : PendEntry) (l : List PendEntry) :
    flushPending (e :: l) =
      (if e.cancelled then [] else [e.frame]) ++ flushPending l := by
  cases hc : e.cancelled <;> simp [flushPending, List.filter_cons, hc]

theorem foldl_senderSend (ms : List Message) :
    ∀ q, ms.foldl senderSend q = q ++ ms.map (fun m => ⟨m, false⟩) := by
  induction ms with
  | nil => intro q; simp
  | cons m rest ih => intro q; simp [senderSend, ih]

theorem flushPending_fresh (ms : List Message) :
    flushPending (ms.map fun m => ⟨m, false⟩) = ms := by
  induction ms with
  | nil => rfl
  | cons m rest ih => simp [flushPending_cons, ih]

/-- C8: frames sent while the transport is not yet ready are queued in
call order and the flush transmits exactly the surviving frames, once
each, in that order; disposing the entry at position `k` removes exactly
that entry's frame from the flush, leaving the order of the frames before
and after it intact. -/
theorem pending_queue_fifo (ms : List Message) (q : List PendEntry)
    (k : Nat) :
    flushPending (ms.foldl senderSend []) = ms ∧
    flushPending (disposeEntry q k) =
      flushPending (q.take k) ++ flushPending (q.drop (k + 1)) := by
  constructor
  · rw [foldl_senderSend ms []]
    simpa using flushPending_fresh ms
  · induction q generalizing k with
    | nil => simp [disposeEntry, flushPending]
    | cons e rest ih =>
      cases k with
      | zero => simp [disposeEntry, flushPending_cons, flushPending]
      | succ n =>
        simp only [disposeEntry, flushPending_cons, List.take_succ_cons,
          List.drop_succ_cons, ih n, List.append_assoc]

/-! ### Claim C9 -/

/-- Does this stimulus go through `addEventListener` (directly, or
internally via `subscribe()`), the only place where `#messageHandler` is
attached to the socket? -/
def isAttachOp : Op → Bool
  | .sub _ _ => true
  | .addL _ _ => true
  | _ => false

/-- A non-attaching stimulus keeps the message handler detached and can
only produce outbound sender invocations. -/
theorem step_no_attach (st : ClientState) (op : Op)
    (hop : isAttachOp op = false) (hm : st.msgAttached = false) :
    (step st op).1.msgAttached = false ∧
    ∀ a ∈ (step st op).2, ∃ m, a = Act.send m := by
  cases op with
  | sub sid q => simp [isAttachOp] at hop
  | addL n t => simp [isAttachOp] at hop
  | errC i ps =>
    simp only [step, errorCall]
    split
    · exact ⟨hm, by simp⟩
    · refine ⟨hm, ?_⟩
      intro a ha
      rw [List.mem_singleton] at ha
      exact ⟨_, ha⟩
  | compC i =>
    simp only [step, completeCall]
    split
    · exact ⟨hm, by simp⟩
    · refine ⟨hm, ?_⟩
      intro a ha
      rw [List.mem_singleton] at ha
      exact ⟨_, ha⟩
  | connInitC p =>
    refine ⟨hm, ?_⟩
    intro a ha
    simp only [step, plainSend, List.mem_singleton] at ha
    exact ⟨_, ha⟩
  | connAckC p =>
    refine ⟨hm, ?_⟩
    intro a ha
    simp only [step, plainSend, List.mem_singleton] at ha
    exact ⟨_, ha⟩
  | pingC p =>
    refine ⟨hm, ?_⟩
    intro a ha
    simp only [step, plainSend, List.mem_singleton] at ha
    exact ⟨_, ha⟩
  | pongC p =>
    refine ⟨hm, ?_⟩
    intro a ha
    simp only [step, plainSend, List.mem_singleton] at ha
    exact ⟨_, ha⟩
  | nextC i payload =>
    refine ⟨hm, ?_⟩
    intro a ha
    simp only [step, plainSend, List.mem_singleton] at ha
    exact ⟨_, ha⟩
  | setS n => exact ⟨hm, by simp [step, setSlotOp]⟩
  | closeEv => exact ⟨hm, by simp [step, fireClose]⟩
  | inbound r =>
    simp only [step, handleRaw, hm, Bool.false_eq_true, if_false]
    exact ⟨trivial, by simp⟩

/-- Runs without attach operations never attach the handler and never
dispatch anything. -/
theorem runOps_no_attach :
    ∀ (ops : List Op) (st : ClientState), st.msgAttached = false →
      (∀ op ∈ ops, isAttachOp op = false) →
      (runOps st ops).1.msgAttached = false ∧
      ∀ a ∈ (runOps st ops).2, ∃ m, a = Act.send m := by
  intro ops
  induction ops with
  | nil => intro st hm _; exact ⟨hm, by simp [runOps]⟩
  | cons op rest ih =>
    intro st hm hall
    have h1 := step_no_attach st op (hall op (List.mem_cons_self op rest)) hm
    have h2 := ih (step st op).1 h1.1
      (fun o ho => hall o (List.mem_cons_of_mem op ho))
    refine ⟨h2.1, ?_⟩
    intro a ha
    simp only [runOps, List.mem_append] at ha
    rcases ha with h | h
    · exact h1.2 a h
    · exact h2.2 a h

/-- C9: on a fresh client, as long as neither the caller nor `subscribe()`
ever calls `addEventListener`, the socket's message handler stays
detached and the whole observable trace consists of outbound sender
invocations only — no inbound transport message is decoded or
dispatched, even when inbound messages arrive and single-slot `on*`
fields are assigned. -/
theorem no_dispatch_before_listener (ops : List Op)
    (h : ∀ op ∈ ops, isAttachOp op = false) :
    (runOps initState ops).1.msgAttached = false ∧
    ∀ a ∈ (runOps initState ops).2, ∃ m, a = Act.send m :=
  runOps_no_attach ops initState rfl h

/-- Witness for C9: slots assigned, inbound messages arriving, no
listener registration — nothing is dispatched. -/
theorem no_dispatch_before_listener_witness :
    (runOps initState [Op.setS .next, Op.compC "y",
      Op.inbound (Raw.good (Message.next "a" "p")),
      Op.inbound (Raw.bad "oops")]).1.msgAttached = false :=
  (no_dispatch_before_listener [Op.setS .next, Op.compC "y",
      Op.inbound (Raw.good (Message.next "a" "p")),
      Op.inbound (Raw.bad "oops")] (by decide)).1

/-! ### Claim C10 -/

/-- A guard-passing dispatch of a non-`complete` event leaves the whole
state untouched. -/
theorem plainDispatch_bus_pure (st : ClientState) (hwb : wb st = true)
    (name : EvName) (hn : name ≠ EvName.complete) (m : Message) :
    (plainDispatch st name m).1 = st := by
  show (dispatchBus st name (.msg m)).1 = st
  rw [dispatch_pure st hwb name hn (.msg m)]

/-- C10: a local `error(id, …)` or `complete(id)` call touches nothing
but the completion guard and the sender: the listener registry, the
subscription table and the close handlers are unchanged, the identifier
ends up in the guard, every action in the trace is a sender invocation
(no callback, no disposer), and on a first call the trace is exactly the
one terminal frame.  Moreover, across EVERY stimulus, a registered
listener can only disappear from the registry through the socket's
`close` event or a dispatched inbound `Complete` message. -/
theorem local_terminal_no_teardown (st : ClientState) (i : String)
    (ps : List String) (hwb : wb st = true) :
    (errorCall st i ps).1.bus = st.bus ∧
    (completeCall st i).1.bus = st.bus ∧
    (errorCall st i ps).1.subs = st.subs ∧
    (completeCall st i).1.subs = st.subs ∧
    (errorCall st i ps).1.closeHs = st.closeHs ∧
    (completeCall st i).1.closeHs = st.closeHs ∧
    (errorCall st i ps).1.completedIds.contains i = true ∧
    (completeCall st i).1.completedIds.contains i = true ∧
    (∀ a ∈ (errorCall st i ps).2, ∃ m, a = Act.send m) ∧
    (∀ a ∈ (completeCall st i).2, ∃ m, a = Act.send m) ∧
    (st.completedIds.contains i = false →
      (errorCall st i ps).2 = [Act.send (.error i ps)] ∧
      (completeCall st i).2 = [Act.send (.complete i)]) ∧
    ∀ (op : Op) (e : BusEntry), e ∈ st.bus →
      e ∉ (step st op).1.bus →
      op = Op.closeEv ∨ ∃ j, op = Op.inbound (Raw.good (Message.complete j)) := by
  refine ⟨by simp only [errorCall]; split <;> rfl,
    by simp only [completeCall]; split <;> rfl,
    by simp only [errorCall]; split <;> rfl,
    by simp only [completeCall]; split <;> rfl,
    by simp only [errorCall]; split <;> rfl,
    by simp only [completeCall]; split <;> rfl,
    ?_, ?_, ?_, ?_, ?_, ?_⟩
  · simp only [errorCall]
    split
    · assumption
    · simp
  · simp only [completeCall]
    split
    · assumption
    · simp
  · simp only [errorCall]
    split
    · simp
    · intro a ha
      rw [List.mem_singleton] at ha
      exact ⟨_, ha⟩
  · simp only [completeCall]
    split
    · simp
    · intro a ha
      rw [List.mem_singleton] at ha
      exact ⟨_, ha⟩
  · intro h
    have h' : i ∉ st.completedIds := by simpa using h
    constructor
    · simp [errorCall, h']
    · simp [completeCall, h']
  · intro op e he hnm
    cases op with
    | sub sid q =>
      exfalso; apply hnm
      simp only [step, subscribeOp]
      exact List.mem_append_left _ he
    | addL n t =>
      exfalso; apply hnm
      simp only [step, addListenerOp]
      exact List.mem_append_left _ he
    | errC j ps2 =>
      exfalso; apply hnm
      simp only [step, errorCall]
      split
      · exact he
      · exact he
    | compC j =>
      exfalso; apply hnm
      simp only [step, completeCall]
      split
      · exact he
      · exact he
    | connInitC p => exact absurd he hnm
    | connAckC p => exact absurd he hnm
    | pingC p => exact absurd he hnm
    | pongC p => exact absurd he hnm
    | nextC j payload => exact absurd he hnm
    | setS n => exact absurd he hnm
    | closeEv => exact Or.inl rfl
    | inbound r =>
      cases r with
      | bad d =>
        exfalso; apply hnm
        simp only [step, handleRaw]
        split
        · rw [dispatch_pure st hwb .unknown (by decide) (.desc d)]
          exact he
        · exact he
      | good m =>
        cases m with
        | complete j => exact Or.inr ⟨j, rfl⟩
        | connectionInit p =>
          exfalso; apply hnm
          simp only [step, handleRaw]
          split
          · simp only [handleParsed]
            rw [plainDispatch_bus_pure st hwb .connectioninit (by decide) _]
            exact he
          · exact he
        | connectionAck p =>
          exfalso; apply hnm
          simp only [step, handleRaw]
          split
          · simp only [handleParsed]
            rw [plainDispatch_bus_pure st hwb .connectionack (by decide) _]
            exact he
          · exact he
        | ping p =>
          exfalso; apply hnm
          simp only [step, handleRaw]
          split
          · simp only [handleParsed]
            rw [plainDispatch_bus_pure st hwb .ping (by decide) _]
            exact he
          · exact he
        | pong p =>
          exfalso; apply hnm
          simp only [step, handleRaw]
          split
          · simp only [handleParsed]
            rw [plainDispatch_bus_pure st hwb .pong (by decide) _]
            exact he
          · exact he
        | subscribe j q =>
          exfalso; apply hnm
          simp only [step, handleRaw]
          split
          · simp only [handleParsed]
            rw [plainDispatch_bus_pure st hwb .subscribe (by decide) _]
            exact he
          · exact he
        | next j p =>
          exfalso; apply hnm
          simp only [step, handleRaw]
          split
          · simp only [handleParsed]
            split
            · exact he
            · rw [plainDispatch_bus_pure st hwb .next (by decide) _]
              exact he
          · exact he
        | error j ps2 =>
          exfalso; apply hnm
          simp only [step, handleRaw]
          split
          · simp only [handleParsed]
            split
            · exact he
            · rw [plainDispatch_bus_pure st hwb .error (by decide) _]
              exact he
          · exact he

/-- Witness for C10 on a freshly subscribed client. -/
theorem local_terminal_no_teardown_witness :
    (errorCall (subscribeOp initState "a" "q").1 "b" []).1.bus =
      (subscribeOp initState "a" "q").1.bus :=
  (local_terminal_no_teardown (subscribeOp initState "a" "q").1 "b" []
    (by decide)).1
